import Mathlib

/-!
# A shallow embedding of cachehash (src/cachehash.c)

The source is a fixed-capacity LRU cache: a contiguous arena of doubly
linked list nodes plus a JudyHS hash index from byte-string keys to
machine words.  We embed it as follows.

* A node pointer is the index of the node in the arena (the `nodes` list);
  `Option Nat` models a possibly NULL node pointer.
* A key (`void *key` plus `size_t keylen`) is a list of bytes; the C
  callers always pass a matching pointer/length pair, so `keylen` is the
  length of the list.  The precondition asserts `assert(key)` and
  `assert(keylen)` are modelled as requiring a non-empty list.
* A value (`void *value`) is an opaque machine word, `Nat`, with `0`
  standing for NULL.
* The JudyHS index reached through `*ch->judy` is an association list
  from keys to the stored `Word_t`.  Reading `Pvoid_t j = *ch->judy`
  takes the current list, `*ch->judy = j` stores it back.  Note that
  `cachehash_put` in the source has no such store after `JHSI`, so the
  insertion lands only in the local copy `j` and is lost; the embedding
  reproduces this.
* Callbacks are opaque: the state records only whether one is configured,
  and operations that may invoke callbacks return the list of values
  passed to the callback, in invocation order.
* An operation that fails a C `assert` or dereferences a NULL (or
  otherwise invalid) pointer returns `none`.

Out of scope of the embedding: the `malloced` bookkeeping pointer and the
success of `malloc`/`calloc`, and initialization with `maxitems = 1`,
where `cachehash_init` writes `nodes[0].next = &nodes[1]` and
`nodes[0].prev = &nodes[-1]`, both outside the one-slot arena.
`cachehash_init` therefore yields a state only for `maxitems ≥ 2`
(`maxitems = 0` fails `assert(maxitems > 0)`).
-/

/-- A byte-string key. -/
abbrev Key := List Nat

/-- node_t: a doubly-linked-list node of the arena.  `next` and `prev`
are arena indices, `none` meaning NULL; `key = none` means the slot is
free (`key == NULL` in C). -/
structure Node where
  next : Option Nat
  prev : Option Nat
  key : Option Key
  keylen : Nat
  data : Nat
deriving DecidableEq, Repr

/-- struct cachehash_s.  `judy` is the JudyHS index reached through the
`judy` field; `end_` renders the C field `end` (a Lean keyword);
`evict_cb` records whether an eviction callback is configured. -/
structure Cache where
  judy : List (Key × Nat)
  start : Nat
  end_ : Nat
  maxsize : Nat
  currsize : Nat
  evict_cb : Bool
  nodes : List Node
deriving DecidableEq, Repr

/-- Read the arena node at index `i`; `none` when `i` is not a valid
node address. -/
def getNode (ch : Cache) (i : Nat) : Option Node :=
  ch.nodes.get? i

/-- Write the arena node at index `i`. -/
def setNode (ch : Cache) (i : Nat) (n : Node) : Cache :=
  { ch with nodes := ch.nodes.set i n }

/-- JHSG: look a key up in the index. -/
def judyLookup (j : List (Key × Nat)) (k : Key) : Option Nat :=
  match j with
  | [] => none
  | (k1, v) :: rest => if k1 = k then some v else judyLookup rest k

/-- JHSD: delete a key from the index. -/
def judyDelete (j : List (Key × Nat)) (k : Key) : List (Key × Nat) :=
  match j with
  | [] => []
  | (k1, v) :: rest => if k1 = k then rest else (k1, v) :: judyDelete rest k

/-- JHSI followed by `*v_ = w`: bind the key to the word `w` in the
index. -/
def judyInsert (j : List (Key × Nat)) (k : Key) (w : Nat) : List (Key × Nat) :=
  match j with
  | [] => [(k, w)]
  | (k1, v) :: rest => if k1 = k then (k1, w) :: rest else (k1, v) :: judyInsert rest k w

/-- The arena produced by cachehash_init for `cap ≥ 2` slots: slot 0 has
only a successor, the last slot only a predecessor, middle slots both
(`calloc` zeroes every other field). -/
def initNodes (cap : Nat) : List Node :=
  (List.range cap).map fun i =>
    { next := if i + 1 < cap then some (i + 1) else none
      prev := if i = 0 then none else some (i - 1)
      key := none
      keylen := 0
      data := 0 }

/-- cachehash_init.  The parameter `cb` mirrors the C signature but the
source never stores it: `memset(retv, 0, ...)` leaves `evict_cb` NULL and
no later assignment touches it, so the state records `evict_cb := false`
whatever `cb` is.  `maxitems = 0` fails `assert(maxitems > 0)`;
`maxitems = 1` writes outside the arena (see the header comment), so a
state is produced only for `maxitems ≥ 2`. -/
def cachehash_init (maxitems : Nat) (cb : Bool) : Option Cache :=
  if maxitems < 2 then none
  else some
    { judy := []
      start := 0
      end_ := maxitems - 1
      maxsize := maxitems
      currsize := 0
      evict_cb := false
      nodes := initNodes maxitems }

/-- EVICTION_NEEDED. -/
def EVICTION_NEEDED : Nat := 1

/-- EVICTION_UNNEC. -/
def EVICTION_UNNEC : Nat := 0

/-- eviction_needed: is the cache full? -/
def eviction_needed (ch : Cache) : Nat :=
  if ch.currsize = ch.maxsize then EVICTION_NEEDED else EVICTION_UNNEC

/-- evict: remove the LRU node `ch->end` from the index, clear the node,
decrement the size and return the displaced value.  `JHSD` reports
through `rc` whether the key was present; `assert(rc)` aborts when it was
not (the comment in the source: nothing in the linked list should be
missing from the judy array). -/
def evict (ch : Cache) : Option (Nat × Cache) :=
  (getNode ch ch.end_).bind fun last =>
    let rc : Bool :=
      match last.key with
      | some k => (judyLookup ch.judy k).isSome
      | none => false
    if rc then
      let j1 :=
        match last.key with
        | some k => judyDelete ch.judy k
        | none => ch.judy
      let ch1 := { ch with judy := j1 }
      let retv := last.data
      let ch2 := setNode ch1 ch.end_ { last with data := 0, key := none, keylen := 0 }
      some (retv, { ch2 with currsize := ch2.currsize - 1 })
    else none

/-- use: splice node `i` out of the recency list and reattach it at the
head.  Mirrors the C statement by statement: if the node has no
predecessor nothing happens; otherwise the predecessor takes over the
successor link, the successor (or `ch->end`) takes over the predecessor,
and the node becomes the new `ch->start`.  Note the source never updates
the `prev` field of the old head. -/
def use (ch : Cache) (i : Nat) : Option Cache :=
  (getNode ch i).bind fun (n : Node) =>
    match n.prev with
    | none => some ch
    | some p =>
      (getNode ch p).bind fun (pn : Node) =>
        let chA := setNode ch p { pn with next := n.next }
        (getNode chA i).bind fun (n1 : Node) =>
          (match n1.next with
            | some nx =>
              (getNode chA nx).map fun (xn : Node) => setNode chA nx { xn with prev := some p }
            | none => some { chA with end_ := p }).bind fun (chB1 : Cache) =>
            (getNode chB1 i).map fun (n2 : Node) =>
              let chC := setNode chB1 i { n2 with next := some chB1.start, prev := none }
              { chC with start := i }

/-- The `node_t*` obtained by casting a `Word_t` read back from the judy
index.  The only judy insertion in the source stores `(Word_t) value`
(cachehash_put), so a nonzero word is the caller value handle, not the
address of an arena node. -/
inductive CPtr where
  | null
  | word (w : Nat)
deriving DecidableEq, Repr

/-- judy_get: `JHSG` then `return (node_t*) *v_` with no check of `v_`.
On a miss JHSG sets `v_` to NULL, so the unconditional dereference of
`v_` is a NULL-pointer fault, modelled as `none`.  The returned cache
reflects the write-back `*ch->judy = j` (JHSG leaves `j` unchanged). -/
def judy_get (ch : Cache) (key : Key) : Option (CPtr × Cache) :=
  if key = [] then none
  else
    let j := ch.judy
    let v_ := judyLookup j key
    let ch1 := { ch with judy := j }
    v_.bind fun w => some (if w = 0 then CPtr.null else CPtr.word w, ch1)

/-- cachehash_has: look the key up; a NULL node pointer means absent
(return NULL, modelled as `0`).  A nonzero pointer is dereferenced for
`n->data`; since the stored word is the caller value handle and not an
arena node, that read is undefined, modelled as a fault. -/
def cachehash_has (ch : Cache) (key : Key) : Option (Nat × Cache) :=
  if key = [] then none
  else
    (judy_get ch key).bind fun pr =>
      match pr with
      | (CPtr.null, ch1) => some (0, ch1)
      | (CPtr.word _, _) => none

/-- cachehash_get: like cachehash_has but promotes the node with `use`
on a hit.  `use` immediately reads `n->prev` through the returned
pointer; as in cachehash_has the pointer is not an arena node, so the
hit path is a fault. -/
def cachehash_get (ch : Cache) (key : Key) : Option (Nat × Cache) :=
  if key = [] then none
  else
    (judy_get ch key).bind fun pr =>
      match pr with
      | (CPtr.null, ch1) => some (0, ch1)
      | (CPtr.word _, _) => none

/-- cachehash_evict_if_full: evict the LRU entry when the cache is full,
otherwise return NULL (`0`) with the state untouched. -/
def cachehash_evict_if_full (ch : Cache) : Option (Nat × Cache) :=
  if eviction_needed ch = EVICTION_UNNEC then some (0, ch)
  else evict ch

/-- cachehash_put: evict if full (invoking the eviction callback with a
non-NULL displaced value when one is configured), repurpose `ch->end`
for the new entry, promote it, bump the size, then insert into the
index: `JHSI` on the local copy `j`, `assert(!*v_)`, `*v_ = (Word_t)
value`.  The updated `j` is never stored back to `*ch->judy`, so the
index insertion is lost.  Returns the new state and the values passed to
the eviction callback. -/
def cachehash_put (ch : Cache) (key : Key) (value : Nat) : Option (Cache × List Nat) :=
  if key = [] then none
  else
    (cachehash_evict_if_full ch).bind fun pr =>
      let evicted := pr.1
      let chE := pr.2
      let events := if evicted ≠ 0 ∧ chE.evict_cb then [evicted] else []
      (getNode chE chE.end_).bind fun nd =>
        let ch2 := setNode chE chE.end_
          { nd with key := some key, keylen := key.length, data := value }
        (use ch2 chE.end_).bind fun ch3 =>
          let ch4 := { ch3 with currsize := ch3.currsize + 1 }
          let j := ch4.judy
          if (judyLookup j key).getD 0 ≠ 0 then none
          else
            let _updated := judyInsert j key value
            some (ch4, events)

/-- The walk of cachehash_free: starting from `ch->start`, the loop
`while (n->next) { ...; n = n->next; }` processes a node only when its
successor pointer is non-NULL, so the tail node is never processed.  For
each processed occupied node the key storage is released and, when a
release callback is supplied, the callback receives `n->data`.  Returns
the callback arguments in order; the fuel bounds the walk (a chain over
a finite arena). -/
def freeWalk (ch : Cache) (cb : Bool) (i : Nat) (fuel : Nat) : Option (List Nat) :=
  match fuel with
  | 0 => none
  | fuel1 + 1 =>
    match getNode ch i with
    | none => none
    | some n =>
      match n.next with
      | none => some []
      | some nx =>
        let evs :=
          match n.key with
          | some _ => if cb then [n.data] else []
          | none => []
        match freeWalk ch cb nx fuel1 with
        | none => none
        | some rest => some (evs ++ rest)

/-- cachehash_free: free the judy index (`JHSFA`), then walk the node
chain as in `freeWalk`, then release the arena and the cache. -/
def cachehash_free (ch : Cache) (cb : Bool) : Option (List Nat) :=
  freeWalk ch cb ch.start (ch.nodes.length + 1)

/-- A public cache operation, for reasoning about operation sequences. -/
inductive Op where
  | has (key : Key)
  | get (key : Key)
  | put (key : Key) (value : Nat)
  | evictIfFull
deriving DecidableEq, Repr

/-- The state after one public operation, `none` when the operation
faults or fails an assertion. -/
def step (ch : Cache) : Op → Option Cache
  | Op.has k => (cachehash_has ch k).map Prod.snd
  | Op.get k => (cachehash_get ch k).map Prod.snd
  | Op.put k v => (cachehash_put ch k v).map Prod.fst
  | Op.evictIfFull => (cachehash_evict_if_full ch).map Prod.snd

/-- Run a sequence of public operations. -/
def run (ch : Cache) : List Op → Option Cache
  | [] => some ch
  | op :: ops =>
    match step ch op with
    | none => none
    | some ch1 => run ch1 ops

/-! ## Size bookkeeping lemmas

The helper lemmas below track how each operation changes `currsize` and
`maxsize`, for the capacity invariant. -/

theorem use_size {ch ch1 : Cache} {i : Nat} (h : use ch i = some ch1) :
    ch1.currsize = ch.currsize ∧ ch1.maxsize = ch.maxsize := by
  simp only [use, Option.bind_eq_some, Option.map_eq_some'] at h
  obtain ⟨n, hn, h⟩ := h
  split at h
  · injection h with h
    subst h
    exact ⟨rfl, rfl⟩
  · simp only [Option.bind_eq_some, Option.map_eq_some'] at h
    obtain ⟨pn, hpn, h⟩ := h
    obtain ⟨n1, hn1, h⟩ := h
    obtain ⟨chB1, hB, h⟩ := h
    obtain ⟨n2, hn2, h⟩ := h
    subst h
    split at hB
    · simp only [Option.map_eq_some'] at hB
      obtain ⟨xn, hxn, hB⟩ := hB
      subst hB
      exact ⟨rfl, rfl⟩
    · injection hB with hB
      subst hB
      exact ⟨rfl, rfl⟩

theorem evict_size {ch ch1 : Cache} {v : Nat} (h : evict ch = some (v, ch1)) :
    ch1.currsize = ch.currsize - 1 ∧ ch1.maxsize = ch.maxsize := by
  simp only [evict, Option.bind_eq_some] at h
  obtain ⟨last, hlast, h⟩ := h
  split at h
  · injection h with h
    injection h with h1 h2
    subst h2
    exact ⟨rfl, rfl⟩
  · exact Option.noConfusion h

theorem judy_get_state {ch ch1 : Cache} {key : Key} {p : CPtr}
    (h : judy_get ch key = some (p, ch1)) : ch1 = ch := by
  simp only [judy_get] at h
  split at h
  · exact Option.noConfusion h
  · simp only [Option.bind_eq_some] at h
    obtain ⟨w, hw, h⟩ := h
    injection h with h
    injection h with h1 h2
    exact h2.symm

theorem has_state {ch ch1 : Cache} {key : Key} {v : Nat}
    (h : cachehash_has ch key = some (v, ch1)) : ch1 = ch := by
  simp only [cachehash_has] at h
  split at h
  · exact Option.noConfusion h
  · simp only [Option.bind_eq_some] at h
    obtain ⟨pr, hpr, h⟩ := h
    split at h
    · injection h with h
      injection h with h1 h2
      subst h2
      exact judy_get_state hpr
    · exact Option.noConfusion h

theorem get_state {ch ch1 : Cache} {key : Key} {v : Nat}
    (h : cachehash_get ch key = some (v, ch1)) : ch1 = ch := by
  simp only [cachehash_get] at h
  split at h
  · exact Option.noConfusion h
  · simp only [Option.bind_eq_some] at h
    obtain ⟨pr, hpr, h⟩ := h
    split at h
    · injection h with h
      injection h with h1 h2
      subst h2
      exact judy_get_state hpr
    · exact Option.noConfusion h

theorem evict_if_full_size {ch ch1 : Cache} {v : Nat}
    (h : cachehash_evict_if_full ch = some (v, ch1)) :
    (ch.currsize ≠ ch.maxsize ∧ ch1 = ch) ∨
      (ch.currsize = ch.maxsize ∧ ch1.currsize = ch.currsize - 1 ∧
        ch1.maxsize = ch.maxsize) := by
  by_cases hcc : ch.currsize = ch.maxsize
  · simp only [cachehash_evict_if_full, eviction_needed, hcc, if_true,
      EVICTION_NEEDED, EVICTION_UNNEC] at h
    norm_num at h
    exact Or.inr ⟨hcc, evict_size h⟩
  · simp only [cachehash_evict_if_full, eviction_needed, hcc, if_false,
      EVICTION_NEEDED, EVICTION_UNNEC] at h
    norm_num at h
    exact Or.inl ⟨hcc, h.2.symm⟩

theorem put_size {ch ch1 : Cache} {key : Key} {v : Nat} {evs : List Nat}
    (h : cachehash_put ch key v = some (ch1, evs))
    (hle : ch.currsize ≤ ch.maxsize) (hpos : 1 ≤ ch.maxsize) :
    ch1.currsize ≤ ch1.maxsize ∧ 1 ≤ ch1.maxsize := by
  simp only [cachehash_put] at h
  split at h
  · exact Option.noConfusion h
  · simp only [Option.bind_eq_some] at h
    obtain ⟨pr, hef, h⟩ := h
    obtain ⟨evicted, chE⟩ := pr
    dsimp only at h
    obtain ⟨nd, hnd, h⟩ := h
    obtain ⟨ch3, hu, h⟩ := h
    split at h
    · exact Option.noConfusion h
    · injection h with h
      injection h with h1 h2
      subst h1
      obtain ⟨hu1, hu2⟩ := use_size hu
      have e1 : ch3.currsize = chE.currsize := hu1
      have e2 : ch3.maxsize = chE.maxsize := hu2
      rcases evict_if_full_size hef with ⟨hne, hcc⟩ | ⟨heqf, hc, hm⟩
      · subst hcc
        refine ⟨?_, ?_⟩ <;> (dsimp only; omega)
      · refine ⟨?_, ?_⟩ <;> (dsimp only; omega)

theorem step_size {ch ch1 : Cache} {op : Op} (h : step ch op = some ch1)
    (hle : ch.currsize ≤ ch.maxsize) (hpos : 1 ≤ ch.maxsize) :
    ch1.currsize ≤ ch1.maxsize ∧ 1 ≤ ch1.maxsize := by
  cases op with
  | has k =>
    simp only [step, Option.map_eq_some'] at h
    obtain ⟨pr, hh, h⟩ := h
    obtain ⟨v, c⟩ := pr
    dsimp only at h
    subst h
    rw [has_state hh]
    exact ⟨hle, hpos⟩
  | get k =>
    simp only [step, Option.map_eq_some'] at h
    obtain ⟨pr, hh, h⟩ := h
    obtain ⟨v, c⟩ := pr
    dsimp only at h
    subst h
    rw [get_state hh]
    exact ⟨hle, hpos⟩
  | put k v =>
    simp only [step, Option.map_eq_some'] at h
    obtain ⟨pr, hh, h⟩ := h
    obtain ⟨c, evs⟩ := pr
    dsimp only at h
    subst h
    exact put_size hh hle hpos
  | evictIfFull =>
    simp only [step, Option.map_eq_some'] at h
    obtain ⟨pr, hh, h⟩ := h
    obtain ⟨v, c⟩ := pr
    dsimp only at h
    subst h
    rcases evict_if_full_size hh with ⟨hne, hcc⟩ | ⟨heqf, hc, hm⟩
    · subst hcc
      exact ⟨hle, hpos⟩
    · constructor <;> omega

theorem run_size {ops : List Op} {ch chN : Cache} (h : run ch ops = some chN)
    (hle : ch.currsize ≤ ch.maxsize) (hpos : 1 ≤ ch.maxsize) :
    chN.currsize ≤ chN.maxsize ∧ 1 ≤ chN.maxsize := by
  induction ops generalizing ch with
  | nil =>
    simp only [run] at h
    injection h with h
    subst h
    exact ⟨hle, hpos⟩
  | cons op ops ih =>
    unfold run at h
    cases hs : step ch op with
    | none =>
      rw [hs] at h
      exact Option.noConfusion h
    | some c =>
      rw [hs] at h
      obtain ⟨i1, i2⟩ := step_size hs hle hpos
      exact ih h i1 i2

/-! ## Concrete states used by the witnesses -/

/-- The state produced by cachehash_init with capacity 2 and no eviction
callback. -/
def chW : Cache :=
  { judy := [], start := 0, end_ := 1, maxsize := 2, currsize := 0, evict_cb := false,
    nodes := [{ next := some 1, prev := none, key := none, keylen := 0, data := 0 },
              { next := none, prev := some 0, key := none, keylen := 0, data := 0 }] }

/-- The state after running one insertion on `chW`. -/
def chW1 : Cache := (run chW [Op.put [1] 5]).getD chW

/-! ## The claims -/

/-- Claim C7: for every cache created by cachehash_init and every sequence
of public operations that completes, the occupied-slot count satisfies
0 ≤ currsize ≤ maxsize after each operation (stated for the final state of
an arbitrary operation sequence, which covers every prefix). -/
theorem C7_capacity_invariant (m : Nat) (cb : Bool) (ops : List Op) (ch0 chN : Cache)
    (h0 : cachehash_init m cb = some ch0) (hrun : run ch0 ops = some chN) :
    0 ≤ chN.currsize ∧ chN.currsize ≤ chN.maxsize := by
  unfold cachehash_init at h0
  split at h0
  · exact Option.noConfusion h0
  · rename_i hm
    injection h0 with h0
    subst h0
    refine ⟨Nat.zero_le _, ?_⟩
    exact (run_size hrun (by dsimp only; omega) (by dsimp only; omega)).1

/-- Witness for C7 at capacity 2 with one insertion. -/
theorem C7_capacity_invariant_witness :
    0 ≤ chW1.currsize ∧ chW1.currsize ≤ chW1.maxsize :=
  C7_capacity_invariant 2 false [Op.put [1] 5] chW chW1 (by decide) (by decide)

/-- Claim C10: whenever currsize < maxsize, cachehash_evict_if_full
returns NULL and leaves every component of the cache state unchanged. -/
theorem C10_evict_if_full_noop (ch : Cache) (h : ch.currsize < ch.maxsize) :
    cachehash_evict_if_full ch = some (0, ch) := by
  unfold cachehash_evict_if_full eviction_needed
  simp [Nat.ne_of_lt h, EVICTION_NEEDED, EVICTION_UNNEC]

/-- Witness for C10 on the empty capacity-2 cache. -/
theorem C10_evict_if_full_noop_witness :
    cachehash_evict_if_full chW = some (0, chW) :=
  C10_evict_if_full_noop chW (by decide)

/-- Claim C1 (round-trip): the claim fails on the code.  With capacity 2,
after put(key [1], value 5), get([1]) faults instead of returning 5: the
index insertion performed by cachehash_put was never stored back through
the judy root, so JHSG misses and judy_get dereferences the NULL result
pointer. -/
theorem C1_roundtrip_faults :
    ((cachehash_init 2 false).bind fun ch =>
      (cachehash_put ch [1] 5).bind fun p1 =>
        cachehash_get p1.1 [1]) = none := by decide

/-- Claim C2 (eviction callback delivery): the claim fails on the code.
cachehash_init drops its callback argument, so even a cache created with a
callback records none; moreover a put on a full cache aborts inside evict
at assert(rc) before any callback dispatch could happen. -/
theorem C2_eviction_callback_never_invoked :
    (cachehash_init 2 true).map Cache.evict_cb = some false ∧
    ((cachehash_init 2 true).bind fun ch =>
      (cachehash_put ch [1] 5).bind fun p1 =>
      (cachehash_put p1.1 [2] 7).bind fun p2 =>
        cachehash_put p2.1 [3] 9) = none := by decide

/-- Claim C3 (miss is a normal outcome): the claim fails on the code.  On
a fresh capacity-2 cache, both has([1]) and get([1]) fault: judy_get
dereferences the NULL value pointer that JHSG produces on a miss. -/
theorem C3_missing_key_faults :
    ((cachehash_init 2 false).bind fun ch => cachehash_has ch [1]) = none ∧
    ((cachehash_init 2 false).bind fun ch => cachehash_get ch [1]) = none := by decide

/-- Claim C4 (drain completeness): the claim fails on the code.  With
capacity 2 and both slots occupied (values 5 and 7), cachehash_free with a
release callback invokes the callback once, with 5 only: the walk
condition `while (n->next)` never processes the tail node. -/
theorem C4_drain_skips_tail_slot :
    ((cachehash_init 2 false).bind fun ch =>
      (cachehash_put ch [1] 5).bind fun p1 =>
      (cachehash_put p1.1 [2] 7).bind fun p2 =>
        cachehash_free p2.1 true) = some [5] := by decide

/-- Claim C5 (eviction order): the claim fails on the code.  With
capacity 2, inserting [1] then [2] then [3] aborts during the third put:
evict finds the tail key missing from the judy index (put never stores the
updated index back), so assert(rc) fires; no eviction of k1 and no
subsequent has(k1) = absent ever happens. -/
theorem C5_full_insert_aborts :
    ((cachehash_init 2 false).bind fun ch =>
      (cachehash_put ch [1] 5).bind fun p1 =>
      (cachehash_put p1.1 [2] 7).bind fun p2 =>
        cachehash_put p2.1 [3] 9) = none := by decide

/-- Claim C6 (promotion effect): the claim fails on the code.  The
scenario requires get(k1) after filling the cache, but get(k1) itself
faults (the index is empty, so judy_get dereferences NULL); the promoting
lookup can never succeed, and the subsequent insert aborts as in C5. -/
theorem C6_promoting_get_faults :
    ((cachehash_init 2 false).bind fun ch =>
      (cachehash_put ch [1] 5).bind fun p1 =>
      (cachehash_put p1.1 [2] 7).bind fun p2 =>
        cachehash_get p2.1 [1]) = none := by decide

/-- Claim C8 (duplicate-key insertion aborts): the claim fails on the
code.  Inserting key [1] twice into a capacity-2 cache completes without
any assertion failure: assert(!*v_) inspects a freshly built local copy of
the index (the first insertion was never written back), so it always
passes. -/
theorem C8_duplicate_put_no_abort :
    (((cachehash_init 2 false).bind fun ch =>
      (cachehash_put ch [1] 5).bind fun p1 =>
        cachehash_put p1.1 [1] 6)).isSome = true := by decide

/-- Claim C9 (peek non-mutation): the claim fails on the code.  has on a
key that was just inserted does not return at all: the key is absent from
the index (the put insertion was lost), so judy_get faults on the NULL
result pointer; there is no after-state to compare. -/
theorem C9_has_on_present_key_faults :
    ((cachehash_init 2 false).bind fun ch =>
      (cachehash_put ch [1] 5).bind fun p1 =>
        cachehash_has p1.1 [1]) = none := by decide
